import Mathlib

/-!
Verification of the resource-checker repository (authoritative source:
src/main.py, configuration in src/config/settings.py).

Shallow embedding conventions:
- OS, subprocess, filesystem and network effects are supplied by an explicit
  environment (`Env`) of pure oracles; a run of the Python program corresponds
  to one fixed `Env`.
- Python `dict`s are insertion-ordered association lists (`List (String × _)`);
  assigning to an existing key replaces the value in place, keeping the key's
  original position, exactly like CPython dicts.
- Python exceptions are modelled by `Except PyExc`; a `try/except T` block is a
  `match` that converts exactly the `T`-shaped errors and re-raises the rest.
- Python string primitives (`split`, `join`, `splitlines`, `strip`, `find`,
  slicing, `in`, `endswith`) are re-implemented below with Python semantics so
  that every definition is executable by the kernel.
-/

namespace ResourceChecker

/-- Python exceptions observable by the embedded code; each constructor carries
the text that `str(e)` would produce. -/
inductive PyExc where
  | requestException (msg : String)
  | indexError (msg : String)
  | attributeError (msg : String)
  | typeError (msg : String)
  | other (msg : String)
deriving DecidableEq

/-- The text `str(e)` of an exception, as interpolated by f-strings. -/
def PyExc.msg : PyExc → String
  | .requestException m => m
  | .indexError m => m
  | .attributeError m => m
  | .typeError m => m
  | .other m => m

/-- JSON values, the possible results of `response.json()`. -/
inductive JValue where
  | jnull
  | jstr (s : String)
  | jnum (n : Int)
  | jarr (xs : List JValue)
  | jobj (fields : List (String × JValue))

/-- `str(v)` for the JSON values that the modelled flows interpolate into
f-strings; in the real data these are always strings. -/
def pyStrJ : JValue → String
  | .jstr s => s
  | .jnum n => toString n
  | .jnull => "None"
  | .jarr _ => "<list>"
  | .jobj _ => "<dict>"

/-- Python `str.split(sep)` for a single-character separator:
`"".split(sep) = [""]`, empty pieces are kept. -/
def pySplit (sep : Char) (s : String) : List String :=
  (s.toList.foldr
    (fun c acc =>
      match acc with
      | [] => [[c]]
      | cur :: rest => if c = sep then [] :: cur :: rest else (c :: cur) :: rest)
    [[]]).map (fun l => String.mk l)

/-- Python `sep.join(parts)`. -/
def pyJoin (sep : String) : List String → String
  | [] => ""
  | [x] => x
  | x :: y :: xs => x ++ sep ++ pyJoin sep (y :: xs)

/-- Whitespace stripped by Python `str.strip()` (the characters that occur in
the modelled flows). -/
def pyIsSpace (c : Char) : Bool :=
  c = ' ' || c = '\t' || c = '\n' || c = '\r'

/-- Python `str.strip()`. -/
def pyStrip (s : String) : String :=
  String.mk (((s.toList.dropWhile pyIsSpace).reverse.dropWhile pyIsSpace).reverse)

/-- Python `str.splitlines()` restricted to `\n` separators (the only line
separator produced by the subprocess outputs modelled here): no entry for a
trailing newline, and `"".splitlines() = []`. -/
def pySplitlines (s : String) : List String :=
  let parts := pySplit '\n' s
  if parts.getLast? = some "" then parts.dropLast else parts

/-- Python `suffix in s` is not needed; this is `needle in hay` (substring
containment), used by the URL-dispatch in `get_latest_version`. -/
def listIsInfix (needle : List Char) : List Char → Bool
  | [] => needle.isPrefixOf []
  | c :: rest => needle.isPrefixOf (c :: rest) || listIsInfix needle rest

/-- Python `needle in hay` for strings. -/
def pyIn (needle hay : String) : Bool :=
  listIsInfix needle.toList hay.toList

/-- Python `s.endswith(suffix)`. -/
def pyEndsWith (s suffix : String) : Bool :=
  suffix.toList.isSuffixOf s.toList

/-- Auxiliary scan for `pyFind`: smallest index `≥ k` where `needle` starts. -/
def pyFindGo (needle : List Char) : List Char → Nat → Int
  | [], k => if needle.isPrefixOf [] then Int.ofNat k else -1
  | c :: rest, k =>
    if needle.isPrefixOf (c :: rest) then Int.ofNat k else pyFindGo needle rest (k + 1)

/-- Python `hay.find(needle, start)`: smallest index `≥ start` at which
`needle` occurs, `-1` if none (also when `start` exceeds the length). -/
def pyFind (hay needle : String) (start : Nat) : Int :=
  if start > hay.toList.length then -1
  else pyFindGo needle.toList (hay.toList.drop start) start

/-- Python slicing `s[a:b]` with possibly negative bounds. -/
def pySlice (s : String) (a b : Int) : String :=
  let n : Int := Int.ofNat s.toList.length
  let conv : Int → Nat := fun i => if i < 0 then (n + i).toNat else min i.toNat n.toNat
  let lo := conv a
  let hi := conv b
  String.mk ((s.toList.drop lo).take (hi - lo))

/-- Python `True`/`False` as interpolated by f-strings. -/
def pyStrBool (b : Bool) : String :=
  if b then "True" else "False"

/-- f-string rendering of an optional string field (`None` when absent). -/
def pyStrOpt : Option String → String
  | none => "None"
  | some s => s

/-- Insertion-ordered dict assignment `m[k] = v`: replaces the value of an
existing key in place, otherwise appends the binding at the end. -/
def dictInsert {α : Type} (m : List (String × α)) (k : String) (v : α) : List (String × α) :=
  match m with
  | [] => [(k, v)]
  | (k0, v0) :: rest =>
    if k0 = k then (k0, v) :: rest else (k0, v0) :: dictInsert rest k v

/-- `m.get(k, 0)` for a counter dict. -/
def lookupD (m : List (String × Nat)) (k : String) : Nat :=
  (List.lookup k m).getD 0

/-- First-occurrence deduplication: the key order of a Python dict built by
assigning the elements of a list in order. -/
def firstDedup : List String → List String
  | [] => []
  | x :: xs => x :: (firstDedup xs).filter (fun y => y ≠ x)

/-- Python `set.add` on a set modelled as a duplicate-free list (only
membership is ever observed, so the representation order is irrelevant). -/
def setAdd (s : List String) (x : String) : List String :=
  if s.contains x then s else s ++ [x]

/-- Python `set.update(string)`: a string is an iterable of its characters, so
this adds each CHARACTER of `x` (as a one-character string) to the set. This
faithfully reproduces `covered_dirs.update(os.path.dirname(path))` in
`get_resources` (src/main.py line 129), which the spec itself flags as a
defect (spec §9). -/
def setUpdateChars (s : List String) (x : String) : List String :=
  x.toList.foldl (fun acc c => setAdd acc (String.mk [c])) s

/-- The observable part of a `requests.get` response: status code, body text,
and the outcome of calling `.json()` on it. -/
structure PyResponse where
  status_code : Nat
  text : String
  json : Except PyExc JValue

/-- The ambient operating system, subprocess and network state for one run.
Each field is the pure oracle behind one Python effect:
`platform` = `platform.system()`; `isfile` = `os.path.isfile`;
`accessX` = `os.access(-, os.X_OK)`;
`shell cmd` = `subprocess.check_output(cmd, shell=True, ...)` where `none`
models a raised `CalledProcessError` (the only failure `run_command` handles)
and `some out` the raw captured output;
`checkOutput cmd args` = `subprocess.check_output([cmd, args], ...)`, raw
output or any raised exception;
`net` = `requests.get`; `glob pat` = `glob.glob(pat, recursive=True)`;
`osSep` = `os.sep` (used by `os.path.join`); `pathsep` = `os.pathsep`;
`envPATH`/`envJAVA_HOME`/`envPYTHON_HOME` = `os.environ.get` of the three
variables; `dirname` = `os.path.dirname`. -/
structure Env where
  platform : String
  isfile : String → Bool
  accessX : String → Bool
  shell : String → Option String
  checkOutput : String → String → Except PyExc String
  net : String → Except PyExc PyResponse
  glob : String → List String
  osSep : String
  pathsep : Char
  envPATH : Option String
  envJAVA_HOME : Option String
  envPYTHON_HOME : Option String
  dirname : String → String

/-- src/main.py `log_environment_variables`. -/
def log_environment_variables (env : Env) : List (String × String) :=
  [("PATH", env.envPATH.getD "Not Set"),
   ("JAVA_HOME", env.envJAVA_HOME.getD "Not Set"),
   ("PYTHON_HOME", env.envPYTHON_HOME.getD "Not Set")]

/-- src/main.py `is_executable`. -/
def is_executable (env : Env) (file_path : String) : Bool :=
  if env.platform = "Windows" then
    env.isfile file_path &&
      (pyEndsWith file_path ".exe" || pyEndsWith file_path ".cmd" || pyEndsWith file_path ".bat")
  else
    env.accessX file_path

/-- src/main.py `run_command`: strip the combined output and split it into
lines; a `CalledProcessError` from the subprocess yields `[]`. -/
def run_command (env : Env) (cmd : String) : List String :=
  match env.shell cmd with
  | some output => pySplitlines (pyStrip output)
  | none => []

/-- src/main.py `search_in_standard_dirs`: matches are gathered per glob
pattern in order and kept only when executable by `os.access`. The
`STANDARD_INSTALL_DIRS` configuration list is passed explicitly. -/
def search_in_standard_dirs (env : Env) (standard_install_dirs : List String)
    (resource : String) : List String :=
  (standard_install_dirs.map (fun dir_pattern =>
    (env.glob (dir_pattern ++ env.osSep ++ "**" ++ env.osSep ++ resource)).filter
      env.accessX)).flatten

/-- src/main.py `list_uncovered_path_dirs`: split the live `PATH` on
`os.pathsep` and keep the entries that are truthy (non-empty) and not in the
covered set. -/
def list_uncovered_path_dirs (env : Env) (covered_dirs : List String) : List String :=
  let path_dirs := pySplit env.pathsep (env.envPATH.getD "")
  path_dirs.filter (fun d => !(d = "") && !(covered_dirs.contains d))

/-- src/main.py `find_executable_paths`. -/
def find_executable_paths (env : Env) (command : String) : List String :=
  if env.platform = "Windows" then run_command env ("where " ++ command)
  else run_command env ("which -a " ++ command)

/-- src/main.py `get_version`: the `try` block covers both the subprocess call
and `output.splitlines()[0]`, and `except Exception` converts ANY raised
exception (including the `IndexError` when the stripped output has no lines)
into an `"Error: ..."` string. -/
def get_version (env : Env) (command : String) (version_args : String) : String :=
  match env.checkOutput command version_args with
  | .ok out =>
    match pySplitlines (pyStrip out) with
    | line :: _ => line
    | [] => "Error: " ++ (PyExc.indexError "list index out of range").msg
  | .error e => "Error: " ++ e.msg

/-- `response.json()[0]`: head of a JSON array, `IndexError` when empty,
`TypeError` when the value is not a list. -/
def jIndex0 : JValue → Except PyExc JValue
  | .jarr (x :: _) => .ok x
  | .jarr [] => .error (.indexError "list index out of range")
  | _ => .error (.typeError "object is not subscriptable")

/-- `v.get(key, default)`: dict lookup with default; `AttributeError` when the
value is not a dict. -/
def jGet (v : JValue) (key : String) (default : JValue) : Except PyExc JValue :=
  match v with
  | .jobj fields => .ok ((List.lookup key fields).getD default)
  | _ => .error (.attributeError "object has no attribute get")

/-- The HTML marker whose content the Python-homepage branch extracts. -/
def releaseNumberSpan : String :=
  "<span class=\"release-number\">"

/-- The `try` body of src/main.py `get_latest_version` (lines 77-98). The
source's sequence of plain `if` statements is an `elif` chain because every
branch returns. The `BeautifulSoup(response.text, ...)` value is built but
never used (its only use is commented out), so it has no observable effect. -/
def get_latest_version_body (env : Env) (url : String) : Except PyExc String := do
  let response ← env.net url
  if response.status_code = 200 then
    if pyIn "nodejs" url then do
      let response2 ← env.net "https://nodejs.org/dist/index.json"
      let j ← response2.json
      let response_data ← jIndex0 j
      let version ← jGet response_data "version" (JValue.jstr "Unknown version")
      let date ← jGet response_data "date" (JValue.jstr "Unknown version")
      pure (pyStrJ version ++ " (" ++ pyStrJ date ++ ")")
    else if pyIn "python" url then do
      let start := pyFind response.text releaseNumberSpan 0 + Int.ofNat releaseNumberSpan.toList.length
      let stop := pyFind response.text "</span>" start.toNat
      pure (pyStrip (pySlice response.text start stop))
    else if pyIn "npmjs" url then do
      let response2 ← env.net "https://registry.npmjs.org/npm/latest"
      let j ← response2.json
      let version ← jGet j "version" (JValue.jstr "Unknown version")
      pure (pyStrJ version)
    else
      pure "Latest version info not found"
  else
    pure ("Failed to fetch version from " ++ url)

/-- src/main.py `get_latest_version`: the `except requests.RequestException`
clause converts exactly the `RequestException`-shaped errors into the
`"Error fetching data: ..."` string; every other exception propagates. -/
def get_latest_version (env : Env) (url : String) : Except PyExc String :=
  match get_latest_version_body env url with
  | .error (.requestException m) => .ok ("Error fetching data: " ++ m)
  | r => r

/-- src/main.py `get_path_details`. -/
def get_path_details (env : Env) (path : String) (version_args : String) :
    Bool × Option String :=
  let executable := is_executable env path
  let version := if executable then some (get_version env path version_args) else none
  (executable, version)

/-- The per-path attribute dict
`{"Executable": ..., "Version": ..., "InPath": ...}` of src/main.py. -/
structure PathDetails where
  Executable : Bool
  Version : Option String
  InPath : Bool
deriving DecidableEq

/-- The `online_details` dict of a resource result. -/
structure OnlineDetails where
  latest_version : String
  url : String
deriving DecidableEq

/-- One value of `resource_results`: upstream details plus the
insertion-ordered path dict. -/
structure ResourceResult where
  online_details : OnlineDetails
  paths : List (String × PathDetails)
deriving DecidableEq

/-- The two path loops of src/main.py `get_resources` (lines 123-128): every
`PATH`-found candidate is assigned into the (initially empty) path dict with
`InPath = true`, then every standard-directory candidate with
`InPath = false`; dict assignment replaces in place. -/
def build_paths_map (env : Env) (version_args : String)
    (paths extra_paths : List String) : List (String × PathDetails) :=
  let m0 := paths.foldl
    (fun m path =>
      let pd := get_path_details env path version_args
      dictInsert m path (PathDetails.mk pd.1 pd.2 true)) []
  extra_paths.foldl
    (fun m path =>
      let pd := get_path_details env path version_args
      dictInsert m path (PathDetails.mk pd.1 pd.2 false)) m0

/-- The covered-directory accumulation of src/main.py `get_resources`
(line 129): one `covered_dirs.update(os.path.dirname(path))` per
standard-directory candidate. -/
def covered_update (env : Env) (extra_paths : List String)
    (cov : List String) : List String :=
  extra_paths.foldl (fun c path => setUpdateChars c (env.dirname path)) cov

/-- One iteration of the resource loop of src/main.py `get_resources`
(lines 114-129): resolve the upstream version (an escaping exception aborts
the whole loop, exactly the Python control flow), locate candidates, build
the path dict, extend the covered set. A resource's entry is assigned first
and its `paths` dict then filled in place; the net effect per resource is a
single dict assignment carrying the filled map. -/
def get_resources_step (env : Env) (standard_install_dirs : List String)
    (search_standard_dirs : Bool)
    (acc : List (String × ResourceResult) × List String)
    (entry : String × String × String) :
    Except PyExc (List (String × ResourceResult) × List String) := do
  let resource := entry.1
  let version_args := entry.2.1
  let url := entry.2.2
  let lv ← get_latest_version env url
  let paths := find_executable_paths env resource
  let extra_paths :=
    if search_standard_dirs then search_in_standard_dirs env standard_install_dirs resource
    else []
  pure (dictInsert acc.1 resource
          (ResourceResult.mk (OnlineDetails.mk lv url)
            (build_paths_map env version_args paths extra_paths)),
        covered_update env extra_paths acc.2)

/-- src/main.py `get_resources` (lines 110-131). The `RESOURCES`
configuration mapping and `STANDARD_INSTALL_DIRS` list are passed explicitly
as `resources` (name, version_args, url) and `standard_install_dirs`. -/
def get_resources (env : Env) (resources : List (String × String × String))
    (standard_install_dirs : List String) (search_standard_dirs : Bool) :
    Except PyExc (List (String × ResourceResult) × List String) :=
  resources.foldlM (get_resources_step env standard_install_dirs search_standard_dirs) ([], [])

/-- The nested-dict hierarchy of src/main.py `generate_report`: a node is its
(insertion-ordered) mapping from child segment to child node. -/
inductive HTree where
  | mk (children : List (String × HTree))

/-- The child mapping of a node. -/
def HTree.children : HTree → List (String × HTree)
  | .mk cs => cs

/-- Replace the value of the first binding of `k`, or append `(k, v)`:
the shape of `current.setdefault(part, ...)`-driven updates. -/
def updAssoc (cs : List (String × HTree)) (k : String) (v : HTree) :
    List (String × HTree) :=
  match cs with
  | [] => [(k, v)]
  | (k0, v0) :: rest =>
    if k0 = k then (k0, v) :: rest else (k0, v0) :: updAssoc rest k v

/-- The subtree reached by `current.setdefault(part, {})`: the existing child
or a fresh empty node. -/
def childOf (cs : List (String × HTree)) (k : String) : HTree :=
  (List.lookup k cs).getD (HTree.mk [])

/-- One run of the segment loop of src/main.py `generate_report`
(lines 184-186): descend through `setdefault`, creating nodes as needed. -/
def hinsert (t : HTree) : List String → HTree
  | [] => t
  | p :: ps => HTree.mk (updAssoc t.children p (hinsert (childOf t.children p) ps))

/-- Whether the segment chain `c` is a root-to-node path of the tree. -/
def hasChain (t : HTree) : List String → Bool
  | [] => true
  | p :: ps =>
    match List.lookup p t.children with
    | some sub => hasChain sub ps
    | none => false

/-- The hierarchy accumulated for one resource by src/main.py
`generate_report` (lines 182-186): each path with `InPath == False` is split
on the literal backslash and its segment chain inserted. -/
def buildResourceHierarchy (paths : List (String × PathDetails)) : HTree :=
  paths.foldl
    (fun h pd => if pd.2.InPath = false then hinsert h (pySplit '\\' pd.1) else h)
    (HTree.mk [])

/-- src/main.py `build_path_counts` (lines 151-165): for every path of every
resource, split on the literal backslash and bump a counter for every
non-empty rejoined segment prefix (`parts[:i]` for `i = 1 .. len(parts)`). -/
def build_path_counts (resource_results : List (String × ResourceResult)) :
    List (String × Nat) :=
  resource_results.foldl
    (fun pc rr =>
      rr.2.paths.foldl
        (fun pc pd =>
          let parts := pySplit '\\' pd.1
          (List.range parts.length).foldl
            (fun pc i =>
              let sub_path := pyJoin "\\" (parts.take (i + 1))
              dictInsert pc sub_path (lookupD pc sub_path + 1))
            pc)
        pc)
    []

/-- Lexicographic code-point comparison of character lists: Python's string
ordering. -/
def charsLe : List Char → List Char → Bool
  | [], _ => true
  | _ :: _, [] => false
  | a :: as, b :: bs =>
    if a.toNat < b.toNat then true
    else if b.toNat < a.toNat then false
    else charsLe as bs

/-- Python `s1 <= s2` for strings (code-point lexicographic). -/
def pyStrLe (a b : String) : Bool :=
  charsLe a.toList b.toList

/-- Insertion step of the key sort used to model Python's
`sorted(current.items())` (keys are unique, so sorting by key alone agrees
with tuple comparison). -/
def insertByKey (x : String × HTree) : List (String × HTree) → List (String × HTree)
  | [] => [x]
  | y :: ys => if pyStrLe x.1 y.1 then x :: y :: ys else y :: insertByKey x ys

/-- `sorted(current.items())`. -/
def sortByKey (l : List (String × HTree)) : List (String × HTree) :=
  l.foldr insertByKey []

/-- src/main.py `print_hierarchy` (lines 135-148), returning the lines it
appends to `report`. The Python recursion is structural on the finite tree;
here the depth is bounded by an explicit `fuel` parameter, and any
`fuel` at least the tree's depth produces exactly the Python output (callers
pass a bound derived from the inserted paths). Note the lookup key of a node
is its own key joined with the keys OF ITS CHILDREN
(`"\\".join([key] + list(subdir.keys()))`), not its root-to-node path. -/
def print_hierarchy (fuel : Nat) (current : List (String × HTree))
    (path_counts : List (String × Nat)) (indent : Nat) : List String :=
  match fuel with
  | 0 => []
  | fuel + 1 =>
    (sortByKey current).map
      (fun kt =>
        let key := kt.1
        let subdir := kt.2
        let path := pyJoin "\\" (key :: subdir.children.map Prod.fst)
        let count := lookupD path_counts path
        (String.mk (List.replicate indent ' ') ++ key ++ " (" ++ toString count ++ ")\\") ::
          print_hierarchy fuel subdir.children path_counts (indent + 2))
      |>.flatten

/-- The flat detail block printed for one path when its `Executable` flag is
true (src/main.py lines 177-181); non-executable paths print nothing. -/
def path_detail_lines (path : String) (d : PathDetails) : List String :=
  if d.Executable = true then
    ["\tPath: " ++ path,
     "\t\t\tExecutable: " ++ pyStrBool d.Executable,
     "\t\t\tVersion: " ++ pyStrOpt d.Version,
     "\t\t\tIn-Path Variable: " ++ pyStrBool d.InPath]
  else []

/-- A depth bound sufficient for rendering the hierarchy of one resource: one
more than the total number of backslash segments over all its paths. -/
def hierarchyFuel (paths : List (String × PathDetails)) : Nat :=
  1 + (paths.map (fun pd => (pySplit '\\' pd.1).length)).sum

/-- The per-resource block of src/main.py `generate_report` (lines 172-189):
header line (with the `No paths found` suffix exactly when the path dict is
empty), latest-version line, the flat detail blocks of the executable paths
in dict order, the rendered hierarchy of the `InPath == False` paths, and a
blank line. -/
def resourceSection (path_counts : List (String × Nat))
    (resource : String) (rd : ResourceResult) : List String :=
  (resource ++ ": " ++ (if rd.paths.length = 0 then "No paths found" else "")) ::
  ("\tLatest Available Version: " ++ rd.online_details.latest_version ++ "  -  " ++
      rd.online_details.url) ::
  ((rd.paths.map (fun pd => path_detail_lines pd.1 pd.2)).flatten ++
    print_hierarchy (hierarchyFuel rd.paths) (buildResourceHierarchy rd.paths).children
      path_counts 2 ++
    [""])

/-- src/main.py `generate_report` (lines 168-202). -/
def generate_report (env : Env) (resource_results : List (String × ResourceResult))
    (covered_dirs : List String) : List String :=
  let path_counts := build_path_counts resource_results
  (resource_results.map (fun rr => resourceSection path_counts rr.1 rr.2)).flatten ++
  (let uncovered_dirs := list_uncovered_path_dirs env covered_dirs
   if uncovered_dirs.length ≠ 0 then
     "Uncovered PATH Directories:" :: uncovered_dirs.map (fun d => "  " ++ d)
   else []) ++
  [""] ++
  ("Environment Variables:" ::
    (log_environment_variables env).map (fun kv => "  " ++ kv.1 ++ ": " ++ kv.2))

/-! ### Derived / spec-side definitions -/

/-- The prefix-key strings that src/main.py `build_path_counts` generates for
one path: the rejoined backslash-segment prefixes `"\\".join(parts[:i])`,
`i = 1 .. len(parts)`. -/
def prefix_strings (p : String) : List String :=
  let parts := pySplit '\\' p
  (List.range parts.length).map (fun i => pyJoin "\\" (parts.take (i + 1)))

/-- Recursive form of `prefix_strings` (proved equal below), convenient for
induction. -/
def prefixJoins (sep : String) : List String → List String
  | [] => []
  | x :: xs => x :: (prefixJoins sep xs).map (fun s => x ++ sep ++ s)

/-- All discovered-path occurrences of a result set: the path keys of every
resource, concatenated (a path key occurring under two resources occurs
twice). -/
def allOccurrences (resource_results : List (String × ResourceResult)) : List String :=
  (resource_results.map (fun rr => rr.2.paths.map Prod.fst)).flatten

/-- Modelled from the spec's words for claim C6 ("live `PATH` entries"): the
entries of the live `PATH` value, an entry being a non-empty piece of the
`os.pathsep`-separated split. -/
def livePathEntries (env : Env) : List String :=
  (pySplit env.pathsep (env.envPATH.getD "")).filter (fun d => !(d = ""))

/-! ### Concrete fixtures for counterexamples and witnesses -/

/-- A network world in which every URL answers HTTP 200 with an EMPTY JSON
release index, except the npm homepage whose socket fails. -/
def envC1 : Env :=
  Env.mk "Linux" (fun _ => false) (fun _ => false) (fun _ => none)
    (fun _ _ => Except.error (PyExc.other "boom"))
    (fun u =>
      if u = "https://www.npmjs.com/" then Except.error (PyExc.requestException "net down")
      else Except.ok (PyResponse.mk 200 "" (Except.ok (JValue.jarr []))))
    (fun _ => []) "/" ':' (some "/bin:/sbin") none none (fun _ => "")

/-- One standard-directory discovery of `/opt/foo/bin/node` (`InPath = false`),
the instance named by claim C2. -/
def discoveriesC2 : List (String × PathDetails) :=
  [("/opt/foo/bin/node", PathDetails.mk true (some "v18.16.0") false)]

/-- Windows-style discoveries used for the C2 witness. -/
def discoveriesC2W : List (String × PathDetails) :=
  [("C:\\tools\\node.exe", PathDetails.mk true (some "v18.16.0") false)]

/-- A result set in which the same path key `"a"` occurs under two different
resources. -/
def rrC3 : List (String × ResourceResult) :=
  [("node", ResourceResult.mk (OnlineDetails.mk "v1" "u1") [("a", PathDetails.mk true none true)]),
   ("npm", ResourceResult.mk (OnlineDetails.mk "v2" "u2") [("a", PathDetails.mk true none true)])]

/-- A result set for the C3 witness: one resource, two paths under a common
directory. -/
def rrC3W : List (String × ResourceResult) :=
  [("node", ResourceResult.mk (OnlineDetails.mk "v" "u")
    [("C:\\a\\b", PathDetails.mk true none false), ("C:\\a\\c", PathDetails.mk true none false)])]

/-- The hierarchy node of the C4 failing input: segment `a` with children `b`
and `c` (built from discoveries `a\b` and `a\c`). -/
def treeC4 : List (String × HTree) :=
  [("a", HTree.mk [("b", HTree.mk []), ("c", HTree.mk [])])]

/-- `build_path_counts` of the discoveries `a\b` and `a\c`. -/
def countsC4 : List (String × Nat) :=
  [("a", 2), ("a\\b", 1), ("a\\c", 1)]

/-- The discoveries behind `treeC4`/`countsC4`: two `InPath = false` paths
`a\b` and `a\c`. -/
def dC4 : List (String × PathDetails) :=
  [("a\\b", PathDetails.mk true none false), ("a\\c", PathDetails.mk true none false)]

/-- `dC4` wrapped as a one-resource result set. -/
def rrC4 : List (String × ResourceResult) :=
  [("node", ResourceResult.mk (OnlineDetails.mk "v" "u") dC4)]

/-- An environment whose executability oracles reject everything: used to
witness C5. -/
def envC5 : Env :=
  Env.mk "Linux" (fun _ => false) (fun _ => false) (fun _ => none)
    (fun _ _ => Except.ok "v1.0")
    (fun _ => Except.error (PyExc.requestException "down"))
    (fun _ => []) "/" ':' (some "/bin") none none (fun _ => "")

/-- An environment with `PATH = "/bin::/sbin:"` (doubled and trailing
separators), used to witness C6 and C10. -/
def envC6 : Env :=
  Env.mk "Linux" (fun _ => false) (fun _ => false) (fun _ => none)
    (fun _ _ => Except.error (PyExc.other "boom"))
    (fun _ => Except.error (PyExc.requestException "down"))
    (fun _ => []) "/" ':' (some "/bin::/sbin:") none none (fun _ => "")

/-- An environment for the C7/C8/C9 witnesses: `which -a node` reports the
same path twice plus `/usr/bin/node`, the standard-dir glob rediscovers
`/usr/bin/node`, every file is executable, the version probe fails with a
`CalledProcessError`, and the network always raises. -/
def envC7 : Env :=
  Env.mk "Linux" (fun _ => true) (fun _ => true)
    (fun cmd => if cmd = "which -a node" then some "/usr/bin/node\n/usr/local/bin/node\n" else none)
    (fun _ _ => Except.error (PyExc.other "probe died"))
    (fun _ => Except.error (PyExc.requestException "down"))
    (fun pat => if pat = "/usr/**/node" then ["/usr/bin/node"] else [])
    "/" ':' (some "/bin") none none (fun _ => "/usr/bin")

/-- The resource configuration used by the C7/C8 witnesses. -/
def resourcesC7 : List (String × String × String) :=
  [("node", "--version", "https://nodejs.org/en/"), ("ghost", "--version", "https://example.org/")]

/-- The result dict that the C7/C8 witness run computes (verified by `rfl`
in the C8 witness). -/
def resC8 : List (String × ResourceResult) :=
  [("node", ResourceResult.mk
      (OnlineDetails.mk "Error fetching data: down" "https://nodejs.org/en/")
      [("/usr/bin/node", PathDetails.mk true (some "Error: probe died") false),
       ("/usr/local/bin/node", PathDetails.mk true (some "Error: probe died") true)]),
   ("ghost", ResourceResult.mk
      (OnlineDetails.mk "Error fetching data: down" "https://example.org/") [])]

/-- The covered set of the C7/C8 witness run: the CHARACTERS of
`os.path.dirname("/usr/bin")`, reproducing the `set.update(string)` defect. -/
def covC8 : List String :=
  ["/", "u", "s", "r", "b", "i", "n"]

/-! ### Theorems -/

/-- Claim C1 is FALSE as stated: with every URL answering HTTP 200 and the
node release index decoding to an EMPTY JSON list, the secondary
release-index indexing step `response.json()[0]` of `get_latest_version`
raises an `IndexError`, which the `except requests.RequestException` clause
does not catch, so the resolver raises past its boundary instead of
returning a string. -/
theorem claim_C1_counterexample :
    get_latest_version envC1 "https://nodejs.org/en/" =
      Except.error (PyExc.indexError "list index out of range") := rfl

/-- Claim C1 (amended): `get_latest_version` catches exactly
`requests.RequestException`: a `RequestException` raised at any sub-step is
converted to the descriptive string `"Error fetching data: ..."` and such an
exception never escapes; an exception of any other type raised by the
secondary fetch-and-parse steps (e.g. the `IndexError` above) escapes. -/
theorem claim_C1 (env : Env) (url : String) :
    (∀ m, get_latest_version env url ≠ Except.error (PyExc.requestException m)) ∧
    (∀ m, get_latest_version_body env url = Except.error (PyExc.requestException m) →
      get_latest_version env url = Except.ok ("Error fetching data: " ++ m)) ∧
    (∀ e, get_latest_version env url = Except.error e →
      get_latest_version_body env url = Except.error e) := by
  unfold get_latest_version
  refine ⟨?_, ?_, ?_⟩
  · intro m
    cases h : get_latest_version_body env url with
    | ok v => simp
    | error e => cases e <;> simp
  · intro m h
    rw [h]
  · intro e h
    cases hb : get_latest_version_body env url with
    | ok v => rw [hb] at h; exact absurd h (by simp)
    | error e0 =>
      rw [hb] at h
      cases e0 <;> simp_all

/-- Witness for C1 (amended) at a concrete network: the socket failure on the
npm homepage is converted to a descriptive string. -/
theorem claim_C1_witness :
    get_latest_version envC1 "https://www.npmjs.com/" =
      Except.ok ("Error fetching data: " ++ "net down") :=
  (claim_C1 envC1 "https://www.npmjs.com/").2.1 "net down" rfl

/-- Claim C5: if the executability check returns false for a path, then
`get_path_details` records `Executable = False` and `Version = None`; the
version-probe oracle is never consulted (the result is fixed regardless of
what `checkOutput` would return). -/
theorem claim_C5 (env : Env) (path version_args : String)
    (h : is_executable env path = false) :
    get_path_details env path version_args = (false, none) := by
  unfold get_path_details
  rw [h]
  simp

/-- Witness for C5: a POSIX environment denying execute permission. -/
theorem claim_C5_witness :
    get_path_details envC5 "/usr/bin/node" "--version" = (false, none) :=
  claim_C5 envC5 "/usr/bin/node" "--version" rfl

/-- Claim C6: `list_uncovered_path_dirs` returns exactly the live `PATH`
entries (the non-empty pieces of the `os.pathsep` split, in `PATH` order)
minus the covered-directory set; with an empty covered set every live `PATH`
entry is reported uncovered. -/
theorem claim_C6 (env : Env) (covered_dirs : List String) :
    list_uncovered_path_dirs env covered_dirs =
      (livePathEntries env).filter (fun d => !(covered_dirs.contains d)) ∧
    (covered_dirs = [] → list_uncovered_path_dirs env covered_dirs = livePathEntries env) := by
  constructor
  · unfold list_uncovered_path_dirs livePathEntries
    rw [List.filter_filter]
    apply List.filter_congr
    intro d _
    exact Bool.and_comm _ _
  · intro h
    subst h
    unfold list_uncovered_path_dirs livePathEntries
    apply List.filter_congr
    intro d _
    simp [List.contains]

/-- Witness for C6 at a concrete `PATH` with empty covered set. -/
theorem claim_C6_witness :
    list_uncovered_path_dirs envC6 [] = livePathEntries envC6 :=
  (claim_C6 envC6 []).2 rfl

/-- Claim C10: every entry of the uncovered-`PATH`-directories list is
non-empty, for every covered set and `PATH` value; empty pieces arising from
leading, trailing or doubled separators are dropped. -/
theorem claim_C10 (env : Env) (covered_dirs : List String) (d : String)
    (h : d ∈ list_uncovered_path_dirs env covered_dirs) : ¬(d = "") := by
  unfold list_uncovered_path_dirs at h
  have h2 := (List.mem_filter.mp h).2
  intro hd
  rw [hd] at h2
  simp at h2

/-- Witness for C10: `/bin` survives the split of `"/bin::/sbin:"` and is
non-empty. -/
theorem claim_C10_witness : ¬("/bin" = "") :=
  claim_C10 envC6 [] "/bin" (by decide)

/-- Looking a key up after an `updAssoc` update: the updated key maps to the
new value, every other key is untouched. -/
theorem lookup_updAssoc (cs : List (String × HTree)) (q : String) (v : HTree) (p : String) :
    List.lookup p (updAssoc cs q v) = if p = q then some v else List.lookup p cs := by
  induction cs with
  | nil =>
    by_cases h : p = q
    · simp [updAssoc, List.lookup, h]
    · have hb : (p == q) = false := beq_eq_false_iff_ne.mpr h
      simp [updAssoc, List.lookup, hb, h]
  | cons hd tl ih =>
    obtain ⟨k0, v0⟩ := hd
    by_cases hk : k0 = q
    · subst hk
      by_cases h : p = k0
      · subst h
        simp [updAssoc, List.lookup]
      · have hb : (p == k0) = false := beq_eq_false_iff_ne.mpr h
        simp [updAssoc, List.lookup, hb, h]
    · by_cases h : p = k0
      · subst h
        have hpq : ¬(p = q) := hk
        simp [updAssoc, hk, List.lookup, hpq]
      · have hb : (p == k0) = false := beq_eq_false_iff_ne.mpr h
        simp [updAssoc, hk, List.lookup, hb, ih]

/-- Reduction of `hasChain` on a cons chain when the head segment is bound. -/
theorem hasChain_cons_some (t : HTree) (p : String) (ps : List String) (u : HTree)
    (h : List.lookup p t.children = some u) : hasChain t (p :: ps) = hasChain u ps := by
  simp [hasChain, h]

/-- Reduction of `hasChain` on a cons chain when the head segment is absent. -/
theorem hasChain_cons_none (t : HTree) (p : String) (ps : List String)
    (h : List.lookup p t.children = none) : hasChain t (p :: ps) = false := by
  simp [hasChain, h]

/-- Inserting a segment chain adds exactly that chain and its prefixes to the
chains of the tree. -/
theorem hasChain_hinsert (segs : List String) (t : HTree) (c : List String) :
    hasChain (hinsert t segs) c = (hasChain t c || c.isPrefixOf segs) := by
  induction segs generalizing t c with
  | nil =>
    cases c with
    | nil => simp [hasChain]
    | cons p ps => simp [hinsert, List.isPrefixOf]
  | cons q qs ih =>
    cases c with
    | nil => simp [hasChain]
    | cons p ps =>
      cases t with
      | mk cs =>
        have hins : hinsert (HTree.mk cs) (q :: qs) =
            HTree.mk (updAssoc cs q (hinsert (childOf cs q) qs)) := rfl
        rw [hins]
        by_cases hpq : p = q
        · subst hpq
          have hlk : List.lookup p
              (HTree.mk (updAssoc cs p (hinsert (childOf cs p) qs))).children =
              some (hinsert (childOf cs p) qs) := by
            show List.lookup p (updAssoc cs p (hinsert (childOf cs p) qs)) = _
            rw [lookup_updAssoc, if_pos rfl]
          rw [hasChain_cons_some _ _ _ _ hlk, ih]
          have hpre : (p :: ps).isPrefixOf (p :: qs) = ps.isPrefixOf qs := by
            simp [List.isPrefixOf]
          rw [hpre]
          unfold childOf
          cases hq : List.lookup p cs with
          | some u =>
            rw [hasChain_cons_some (HTree.mk cs) p ps u hq]
            simp [Option.getD]
          | none =>
            rw [hasChain_cons_none (HTree.mk cs) p ps hq]
            cases ps with
            | nil => simp [hasChain, List.isPrefixOf]
            | cons a as =>
              have h2 : hasChain (Option.getD none (HTree.mk [])) (a :: as) = false := by
                simp [Option.getD, hasChain, HTree.children, List.lookup]
              rw [h2]
        · have hlk : List.lookup p
              (HTree.mk (updAssoc cs q (hinsert (childOf cs q) qs))).children =
              List.lookup p cs := by
            show List.lookup p (updAssoc cs q (hinsert (childOf cs q) qs)) = _
            rw [lookup_updAssoc, if_neg hpq]
          have hb : (p == q) = false := beq_eq_false_iff_ne.mpr hpq
          cases hq : List.lookup p cs with
          | some u =>
            rw [hasChain_cons_some _ p ps u (hlk.trans hq),
                hasChain_cons_some (HTree.mk cs) p ps u hq]
            simp [List.isPrefixOf, hb]
          | none =>
            rw [hasChain_cons_none _ p ps (hlk.trans hq),
                hasChain_cons_none (HTree.mk cs) p ps hq]
            simp [List.isPrefixOf, hb]

/-- The chains of the hierarchy accumulated over a path list: the chains of
the start tree plus every prefix of the backslash segments of an
`InPath = false` path. -/
theorem hasChain_buildFold (l : List (String × PathDetails)) (t0 : HTree) (c : List String) :
    hasChain (l.foldl
        (fun h pd => if pd.2.InPath = false then hinsert h (pySplit '\\' pd.1) else h) t0) c =
      (hasChain t0 c ||
        l.any (fun pd => !pd.2.InPath && c.isPrefixOf (pySplit '\\' pd.1))) := by
  induction l generalizing t0 with
  | nil => simp
  | cons hd tl ih =>
    simp only [List.foldl_cons, List.any_cons, ih]
    by_cases h : hd.2.InPath = false
    · rw [if_pos h, hasChain_hinsert, h]
      simp [Bool.or_assoc, Bool.or_comm, Bool.or_left_comm]
    · have h' : hd.2.InPath = true := by revert h; cases hd.2.InPath <;> simp
      rw [if_neg h, h']
      simp

/-- A non-empty chain never occurs in the empty tree. -/
theorem hasChain_empty (c : List String) (h : c ≠ []) : hasChain (HTree.mk []) c = false := by
  cases c with
  | nil => exact absurd rfl h
  | cons p ps => simp [hasChain, HTree.children, List.lookup]

/-- Claim C2 is FALSE as stated: the single standard-directory discovery
`/opt/foo/bin/node` (`in_path = false`) produces a hierarchy WITHOUT the
root-to-leaf chain `opt/foo/bin/node` of the path's platform segments;
the tree instead holds one root node keyed by the entire path string, because
`generate_report` splits on a literal backslash. -/
theorem claim_C2_counterexample :
    ("/opt/foo/bin/node", PathDetails.mk true (some "v18.16.0") false) ∈ discoveriesC2 ∧
    hasChain (buildResourceHierarchy discoveriesC2) ["opt", "foo", "bin", "node"] = false ∧
    hasChain (buildResourceHierarchy discoveriesC2) ["/opt/foo/bin/node"] = true := by
  refine ⟨by decide, by decide, by decide⟩

/-- Claim C2 (amended): segments come from splitting the path on the literal
backslash character (so a POSIX path forms a single segment), and the
root-to-leaf condition weakens to root-to-node: the per-resource hierarchy
tree of `generate_report` contains a non-empty root-to-node chain `c` iff `c`
is a prefix of the backslash-segment list of some discovered path of that
resource with `in_path = false` (a discovered path that is a proper segment
prefix of another is an interior node, not a leaf). -/
theorem claim_C2 (paths : List (String × PathDetails)) (c : List String) (hc : c ≠ []) :
    hasChain (buildResourceHierarchy paths) c = true ↔
      ∃ p d, (p, d) ∈ paths ∧ d.InPath = false ∧ c.isPrefixOf (pySplit '\\' p) = true := by
  unfold buildResourceHierarchy
  rw [hasChain_buildFold, hasChain_empty c hc]
  simp only [Bool.false_or, List.any_eq_true]
  constructor
  · rintro ⟨⟨p, d⟩, hmem, hpd⟩
    refine ⟨p, d, hmem, ?_, ?_⟩
    · have := (Bool.and_eq_true _ _).mp hpd |>.1
      revert this; cases d.InPath <;> simp
    · exact (Bool.and_eq_true _ _).mp hpd |>.2
  · rintro ⟨p, d, hmem, hfalse, hpre⟩
    exact ⟨(p, d), hmem, by simp [hfalse, hpre]⟩

/-- Witness for C2 (amended) on a Windows-style discovery: the chain
`C: / tools` is present exactly because it is a backslash-segment prefix of
the `in_path = false` discovery `C:\tools\node.exe`. -/
theorem claim_C2_witness :
    hasChain (buildResourceHierarchy discoveriesC2W) ["C:", "tools"] = true ↔
      ∃ p d, (p, d) ∈ discoveriesC2W ∧ d.InPath = false ∧
        ["C:", "tools"].isPrefixOf (pySplit '\\' p) = true :=
  claim_C2 discoveriesC2W ["C:", "tools"] (by decide)

/-- Claim C4 is a CODE BUG, demonstrated at the failing input: the hierarchy
built from the `in_path = false` discoveries `a\b` and `a\c`, rendered
against the `pathCounts` table built from the same discoveries. The code
annotates every node with 0, because `print_hierarchy` looks up the node's
key joined with the keys OF ITS CHILDREN (`"a\b\c"`, `"b"`, `"c"`), none of
which is a prefix key; the claim (and the function's own docstring, `"the
number of paths at each level"`) requires the count of the node's
root-to-node prefix, which is 2 for `a` and 1 for `b` and `c`. -/
theorem claim_C4_code_bug :
    build_path_counts rrC4 = countsC4 ∧
    print_hierarchy (hierarchyFuel dC4) (buildResourceHierarchy dC4).children countsC4 2 =
      ["  a (0)\\", "    b (0)\\", "    c (0)\\"] ∧
    lookupD countsC4 "a" = 2 ∧ lookupD countsC4 "a\\b" = 1 ∧ lookupD countsC4 "a\\c" = 1 := by
  refine ⟨by decide, by decide, by decide, by decide, by decide⟩

/-- Claim C3 is FALSE as stated: with the same path key `"a"` discovered
under two different resources, `build_path_counts` assigns 2 to the key
`"a"`, while the number of DISTINCT discovered paths with that prefix is 1:
the counter counts (resource, path) occurrences, not distinct paths. -/
theorem claim_C3_counterexample :
    lookupD (build_path_counts rrC3) "a" = 2 ∧
    (allOccurrences rrC3).dedup.countP (fun p => (prefix_strings p).contains "a") = 1 := by
  refine ⟨by decide, by decide⟩

/-- Dict assignment and lookup: the assigned key maps to the new value, every
other key is untouched. -/
theorem lookup_dictInsert {α : Type} (m : List (String × α)) (k : String) (v : α) (p : String) :
    List.lookup p (dictInsert m k v) = if p = k then some v else List.lookup p m := by
  induction m with
  | nil =>
    by_cases h : p = k
    · simp [dictInsert, List.lookup, h]
    · have hb : (p == k) = false := beq_eq_false_iff_ne.mpr h
      simp [dictInsert, List.lookup, hb, h]
  | cons hd tl ih =>
    obtain ⟨k0, v0⟩ := hd
    by_cases hk : k0 = k
    · subst hk
      by_cases h : p = k0
      · subst h; simp [dictInsert, List.lookup]
      · have hb : (p == k0) = false := beq_eq_false_iff_ne.mpr h
        simp [dictInsert, List.lookup, hb, h]
    · by_cases h : p = k0
      · subst h
        have hpk : ¬(p = k) := hk
        simp [dictInsert, hk, List.lookup, hpk]
      · have hb : (p == k0) = false := beq_eq_false_iff_ne.mpr h
        simp [dictInsert, hk, List.lookup, hb, ih]

/-- One counter bump changes exactly the bumped key's count. -/
theorem lookupD_incr (pc : List (String × Nat)) (k s : String) :
    lookupD (dictInsert pc k (lookupD pc k + 1)) s =
      lookupD pc s + (if s = k then 1 else 0) := by
  unfold lookupD
  rw [lookup_dictInsert]
  by_cases h : s = k
  · subst h; simp
  · simp [h]

/-- Folding counter bumps over any list of items: the resulting count of `s`
is the starting count plus the number of items whose key is `s`. -/
theorem lookupD_foldIncr {β : Type} (l : List β) (g : β → String)
    (pc0 : List (String × Nat)) (s : String) :
    lookupD (l.foldl (fun pc b => dictInsert pc (g b) (lookupD pc (g b) + 1)) pc0) s =
      lookupD pc0 s + (l.map g).count s := by
  induction l generalizing pc0 with
  | nil => simp
  | cons b l ih =>
    simp only [List.foldl_cons, List.map_cons]
    rw [ih, lookupD_incr, List.count_cons]
    by_cases h : s = g b
    · simp [h]
      omega
    · have hb : (g b == s) = false := beq_eq_false_iff_ne.mpr (fun e => h e.symm)
      simp [h, hb]

/-- The inner prefix loop of `build_path_counts` for one path bumps each of
the path's prefix keys once. -/
theorem lookupD_pathFold (p : String) (pc : List (String × Nat)) (s : String) :
    lookupD ((List.range (pySplit '\\' p).length).foldl
        (fun pc i =>
          let sub_path := pyJoin "\\" ((pySplit '\\' p).take (i + 1))
          dictInsert pc sub_path (lookupD pc sub_path + 1)) pc) s =
      lookupD pc s + (prefix_strings p).count s := by
  have h := lookupD_foldIncr (List.range (pySplit '\\' p).length)
      (fun i => pyJoin "\\" ((pySplit '\\' p).take (i + 1))) pc s
  simpa [prefix_strings] using h

/-- The per-resource loop of `build_path_counts`. -/
theorem lookupD_resourceFold (pl : List (String × PathDetails))
    (pc : List (String × Nat)) (s : String) :
    lookupD (pl.foldl
        (fun pc pd =>
          let parts := pySplit '\\' pd.1
          (List.range parts.length).foldl
            (fun pc i =>
              let sub_path := pyJoin "\\" (parts.take (i + 1))
              dictInsert pc sub_path (lookupD pc sub_path + 1)) pc) pc) s =
      lookupD pc s + (pl.map (fun pd => (prefix_strings pd.1).count s)).sum := by
  induction pl generalizing pc with
  | nil => simp
  | cons pd pl ih =>
    simp only [List.foldl_cons, List.map_cons, List.sum_cons]
    rw [ih, lookupD_pathFold]
    omega

/-- The count table assigns to `s` the total number of (resource, path)
occurrences of `s` among the generated prefix keys. -/
theorem lookupD_build_path_counts (rr : List (String × ResourceResult)) (s : String) :
    lookupD (build_path_counts rr) s =
      ((allOccurrences rr).map (fun p => (prefix_strings p).count s)).sum := by
  suffices h : ∀ pc, lookupD (rr.foldl
      (fun pc r =>
        r.2.paths.foldl
          (fun pc pd =>
            let parts := pySplit '\\' pd.1
            (List.range parts.length).foldl
              (fun pc i =>
                let sub_path := pyJoin "\\" (parts.take (i + 1))
                dictInsert pc sub_path (lookupD pc sub_path + 1)) pc) pc) pc) s =
      lookupD pc s + ((allOccurrences rr).map (fun p => (prefix_strings p).count s)).sum by
    have h0 := h []
    simpa [build_path_counts, lookupD, List.lookup] using h0
  induction rr with
  | nil => intro pc; simp [allOccurrences]
  | cons r rr ih =>
    intro pc
    simp only [List.foldl_cons]
    rw [ih, lookupD_resourceFold]
    have hocc : allOccurrences (r :: rr) =
        r.2.paths.map Prod.fst ++ allOccurrences rr := by
      simp [allOccurrences]
    rw [hocc, List.map_append, List.sum_append, List.map_map]
    have : (r.2.paths.map (fun pd => (prefix_strings pd.1).count s)) =
        r.2.paths.map ((fun p => (prefix_strings p).count s) ∘ Prod.fst) := rfl
    rw [this]
    omega

/-- `pyJoin` over a cons with a non-empty tail. -/
theorem pyJoin_cons (sep x : String) (l : List String) (h : l ≠ []) :
    pyJoin sep (x :: l) = x ++ sep ++ pyJoin sep l := by
  cases l with
  | nil => exact absurd rfl h
  | cons y ys => rfl

/-- The prefix keys generated by `build_path_counts` for a segment list, in
recursive form. -/
theorem rangeMap_eq_prefixJoins (sep : String) (l : List String) :
    (List.range l.length).map (fun i => pyJoin sep (l.take (i + 1))) = prefixJoins sep l := by
  induction l with
  | nil => rfl
  | cons x xs ih =>
    rw [List.length_cons, List.range_succ_eq_map, List.map_cons, List.map_map]
    show pyJoin sep ((x :: xs).take 1) :: _ = x :: (prefixJoins sep xs).map (fun s => x ++ sep ++ s)
    refine congrArg₂ List.cons rfl ?_
    rw [← ih, List.map_map]
    apply List.map_congr_left
    intro i hi
    have hlen : i < xs.length := List.mem_range.mp hi
    have htake : xs.take (i + 1) ≠ [] := by
      rw [ne_eq, List.take_eq_nil_iff]
      rintro (h1 | h2)
      · omega
      · subst h2; simp at hlen
    show pyJoin sep ((x :: xs).take (i + 1 + 1)) = x ++ sep ++ pyJoin sep (xs.take (i + 1))
    rw [List.take_succ_cons]
    exact pyJoin_cons sep x _ htake

/-- The recursive prefix-key list has no duplicates (as long as the separator
is non-empty, every later key is strictly longer). -/
theorem nodup_prefixJoins (sep : String) (hsep : sep.data ≠ []) (l : List String) :
    (prefixJoins sep l).Nodup := by
  induction l with
  | nil => simp [prefixJoins]
  | cons x xs ih =>
    rw [prefixJoins, List.nodup_cons]
    constructor
    · intro hmem
      obtain ⟨s, _, heq⟩ := List.mem_map.mp hmem
      have hlen := congrArg (fun t => t.data.length) heq
      simp only [String.data_append, List.length_append] at hlen
      have hpos : 0 < sep.data.length := List.length_pos.mpr hsep
      omega
    · refine List.Nodup.map ?_ ih
      intro a b hab
      have hd : x.data ++ sep.data ++ a.data = x.data ++ sep.data ++ b.data := by
        have h0 := congrArg String.data hab
        simpa [String.data_append] using h0
      have hd2 : (x.data ++ sep.data) ++ a.data = (x.data ++ sep.data) ++ b.data := by
        simpa [List.append_assoc] using hd
      exact String.ext (List.append_cancel_left hd2)

/-- No path generates the same prefix key twice. -/
theorem nodup_prefix_strings (p : String) : (prefix_strings p).Nodup := by
  have h : prefix_strings p = prefixJoins "\\" (pySplit '\\' p) := by
    unfold prefix_strings
    exact rangeMap_eq_prefixJoins "\\" (pySplit '\\' p)
  rw [h]
  exact nodup_prefixJoins "\\" (by decide) (pySplit '\\' p)

/-- On a duplicate-free list, counting occurrences of an element is a
membership test. -/
theorem count_eq_ite_of_nodup (l : List String) (h : l.Nodup) (s : String) :
    l.count s = if l.contains s then 1 else 0 := by
  by_cases hm : s ∈ l
  · rw [if_pos (List.elem_iff.mpr hm)]
    exact List.count_eq_one_of_mem h hm
  · rw [if_neg (fun hc => hm (List.elem_iff.mp hc))]
    exact List.count_eq_zero_of_not_mem hm

/-- Summing indicator values counts the satisfying elements. -/
theorem sum_map_ite {α : Type} (l : List α) (q : α → Bool) :
    (l.map (fun b => if q b then 1 else 0)).sum = l.countP q := by
  induction l with
  | nil => rfl
  | cons a l ih =>
    rw [List.map_cons, List.sum_cons, List.countP_cons, ih]
    by_cases h : q a
    · simp [h]
      omega
    · simp [h]

/-- A counter bump preserves positivity of all stored counts. -/
theorem allPos_incr (pc : List (String × Nat)) (k : String)
    (h : ∀ a v, List.lookup a pc = some v → 1 ≤ v) :
    ∀ a v, List.lookup a (dictInsert pc k (lookupD pc k + 1)) = some v → 1 ≤ v := by
  intro a v hl
  rw [lookup_dictInsert] at hl
  by_cases ha : a = k
  · rw [if_pos ha] at hl
    cases hl
    omega
  · rw [if_neg ha] at hl
    exact h a v hl

/-- Folding counter bumps preserves positivity of all stored counts. -/
theorem allPos_foldIncr {β : Type} (l : List β) (g : β → String)
    (pc0 : List (String × Nat)) (h : ∀ a v, List.lookup a pc0 = some v → 1 ≤ v) :
    ∀ a v, List.lookup a
      (l.foldl (fun pc b => dictInsert pc (g b) (lookupD pc (g b) + 1)) pc0) = some v →
      1 ≤ v := by
  induction l generalizing pc0 with
  | nil => exact h
  | cons b l ih =>
    rw [List.foldl_cons]
    exact ih _ (allPos_incr pc0 (g b) h)

/-- Every count stored by `build_path_counts` is at least 1 (so absent keys
are exactly the keys with occurrence count 0). -/
theorem allPos_build_path_counts (rr : List (String × ResourceResult)) :
    ∀ a v, List.lookup a (build_path_counts rr) = some v → 1 ≤ v := by
  suffices hgen : ∀ (rr : List (String × ResourceResult)) pc,
      (∀ a v, List.lookup a pc = some v → 1 ≤ v) →
      ∀ a v, List.lookup a (rr.foldl
        (fun pc r =>
          r.2.paths.foldl
            (fun pc pd =>
              let parts := pySplit '\\' pd.1
              (List.range parts.length).foldl
                (fun pc i =>
                  let sub_path := pyJoin "\\" (parts.take (i + 1))
                  dictInsert pc sub_path (lookupD pc sub_path + 1)) pc) pc) pc) = some v →
        1 ≤ v by
    intro a v
    exact hgen rr [] (by intro a v hv; simp [List.lookup] at hv) a v
  intro rr
  induction rr with
  | nil => intro pc h; exact h
  | cons r rrt ih =>
    intro pc h
    rw [List.foldl_cons]
    apply ih
    clear ih
    induction r.2.paths generalizing pc with
    | nil => exact h
    | cons pd pl ihp =>
      rw [List.foldl_cons]
      apply ihp
      exact allPos_foldIncr (List.range (pySplit '\\' pd.1).length)
        (fun i => pyJoin "\\" ((pySplit '\\' pd.1).take (i + 1))) pc h

/-- Claim C3 (amended): `build_path_counts` assigns to a prefix key `s` the
number of (resource, path) OCCURRENCES whose backslash-prefix-key list
contains `s` — a path key occurring under several resources is counted once
per resource; keys with no matching occurrence are absent (lookup yields
`none` exactly when the occurrence count is 0); and whenever no path occurs
under two resources, the count does equal the number of distinct discovered
paths with that prefix, as the claim stated. -/
theorem claim_C3 (rr : List (String × ResourceResult)) (s : String) :
    lookupD (build_path_counts rr) s =
      (allOccurrences rr).countP (fun p => (prefix_strings p).contains s) ∧
    (List.lookup s (build_path_counts rr) = none ↔
      (allOccurrences rr).countP (fun p => (prefix_strings p).contains s) = 0) ∧
    ((allOccurrences rr).Nodup →
      lookupD (build_path_counts rr) s =
        (allOccurrences rr).dedup.countP (fun p => (prefix_strings p).contains s)) := by
  have hmain : lookupD (build_path_counts rr) s =
      (allOccurrences rr).countP (fun p => (prefix_strings p).contains s) := by
    rw [lookupD_build_path_counts, ← sum_map_ite]
    refine congrArg List.sum (List.map_congr_left ?_)
    intro p _
    exact count_eq_ite_of_nodup (prefix_strings p) (nodup_prefix_strings p) s
  refine ⟨hmain, ?_, ?_⟩
  · constructor
    · intro hnone
      rw [← hmain]
      unfold lookupD
      rw [hnone]
      rfl
    · intro hzero
      cases hl : List.lookup s (build_path_counts rr) with
      | none => rfl
      | some v =>
        have hv := allPos_build_path_counts rr s v hl
        have : lookupD (build_path_counts rr) s = v := by
          unfold lookupD
          rw [hl]
          rfl
        rw [hmain] at this
        omega
  · intro hnd
    rw [List.Nodup.dedup hnd]
    exact hmain

/-- Witness for C3 (amended) at a one-resource set with two paths below a
common directory: with duplicate-free occurrences the count of `C:\a` equals
the distinct-path count. -/
theorem claim_C3_witness :
    lookupD (build_path_counts rrC3W) "C:\\a" =
      (allOccurrences rrC3W).dedup.countP (fun p => (prefix_strings p).contains "C:\\a") :=
  (claim_C3 rrC3W "C:\\a").2.2 (by decide)

/-- Folding dict inserts over items: a key not among the items keeps its
binding. -/
theorem lookup_foldInsert_not_mem {α : Type} (l : List String) (f : String → α) :
    ∀ (m0 : List (String × α)) (p : String), p ∉ l →
    List.lookup p (l.foldl (fun m q => dictInsert m q (f q)) m0) = List.lookup p m0 := by
  induction l with
  | nil => intro m0 p _; rfl
  | cons q l ih =>
    intro m0 p h
    rw [List.foldl_cons, ih _ p (fun hm => h (List.mem_cons_of_mem q hm)), lookup_dictInsert,
      if_neg (fun e => h (by rw [e]; exact List.mem_cons_self q l))]

/-- Folding dict inserts over items: a key among the items ends bound to the
value computed from it. -/
theorem lookup_foldInsert_mem {α : Type} (l : List String) (f : String → α) :
    ∀ (m0 : List (String × α)) (p : String), p ∈ l →
    List.lookup p (l.foldl (fun m q => dictInsert m q (f q)) m0) = some (f p) := by
  induction l with
  | nil => intro m0 p h; cases h
  | cons q l ih =>
    intro m0 p h
    rw [List.foldl_cons]
    by_cases hl : p ∈ l
    · exact ih _ p hl
    · have hpq : p = q := by
        cases List.mem_cons.mp h with
        | inl e => exact e
        | inr hm => exact absurd hm hl
      subst hpq
      rw [lookup_foldInsert_not_mem l f _ p hl, lookup_dictInsert, if_pos rfl]

/-- Every binding of an updated dict is an old binding or the new one. -/
theorem mem_dictInsert {α : Type} (m : List (String × α)) (k : String) (v : α)
    (kv : String × α) (h : kv ∈ dictInsert m k v) : kv ∈ m ∨ kv = (k, v) := by
  induction m with
  | nil =>
    right
    simpa [dictInsert] using h
  | cons hd tl ih =>
    obtain ⟨k0, v0⟩ := hd
    by_cases e : k0 = k
    · subst e
      rw [show dictInsert ((k0, v0) :: tl) k0 v = (k0, v) :: tl from by
        simp [dictInsert]] at h
      rcases List.mem_cons.mp h with h1 | h2
      · right; exact h1
      · left; exact List.mem_cons_of_mem _ h2
    · rw [show dictInsert ((k0, v0) :: tl) k v = (k0, v0) :: dictInsert tl k v from by
        simp [dictInsert, e]] at h
      rcases List.mem_cons.mp h with h1 | h2
      · left; exact h1 ▸ List.mem_cons_self _ _
      · rcases ih h2 with h3 | h4
        · left; exact List.mem_cons_of_mem _ h3
        · right; exact h4

/-- A stored binding is reachable by lookup of its own key or shadowed by an
earlier one; conversely every successful lookup result is a stored binding. -/
theorem mem_of_lookup {α : Type} (m : List (String × α)) (k : String) (v : α)
    (h : List.lookup k m = some v) : (k, v) ∈ m := by
  induction m with
  | nil => cases h
  | cons hd tl ih =>
    obtain ⟨k0, v0⟩ := hd
    by_cases e : k = k0
    · subst e
      have : v0 = v := by simpa [List.lookup] using h
      subst this
      exact List.mem_cons_self _ _
    · have hb : (k == k0) = false := beq_eq_false_iff_ne.mpr e
      rw [show List.lookup k ((k0, v0) :: tl) = List.lookup k tl from by
        simp [List.lookup, hb]] at h
      exact List.mem_cons_of_mem _ (ih h)

/-- The resource loop runs to completion whenever the resolver returns for
every configured URL (the only sub-step that can raise). -/
theorem foldlM_step_ok (env : Env) (dirs : List String) (ssd : Bool) :
    ∀ (resources : List (String × String × String))
      (acc : List (String × ResourceResult) × List String),
    (∀ e ∈ resources, ∃ s, get_latest_version env e.2.2 = Except.ok s) →
    ∃ out, List.foldlM (get_resources_step env dirs ssd) acc resources = Except.ok out := by
  intro resources
  induction resources with
  | nil => intro acc _; exact ⟨acc, rfl⟩
  | cons e rs ih =>
    intro acc h
    obtain ⟨s, hs⟩ := h e (List.mem_cons_self e rs)
    have hstep : get_resources_step env dirs ssd acc e = Except.ok
        (dictInsert acc.1 e.1 (ResourceResult.mk (OnlineDetails.mk s e.2.2)
          (build_paths_map env e.2.1 (find_executable_paths env e.1)
            (if ssd then search_in_standard_dirs env dirs e.1 else []))),
         covered_update env (if ssd then search_in_standard_dirs env dirs e.1 else []) acc.2) := by
      simp only [get_resources_step]
      rw [hs]
      rfl
    obtain ⟨out, hout⟩ := ih _ (fun e' he' => h e' (List.mem_cons_of_mem e he'))
    refine ⟨out, ?_⟩
    rw [List.foldlM_cons, hstep]
    exact hout

/-- Shape of a completed resource loop: every configured resource name has an
entry in the result dict, entries of the starting dict survive, and every
entry of the result is either inherited or the processed form of some
configured resource with the same name. -/
theorem foldlM_step_spec (env : Env) (dirs : List String) (ssd : Bool) :
    ∀ (resources : List (String × String × String))
      (acc out : List (String × ResourceResult) × List String),
    List.foldlM (get_resources_step env dirs ssd) acc resources = Except.ok out →
    (∀ e ∈ resources, (List.lookup e.1 out.1).isSome) ∧
    (∀ k, (List.lookup k acc.1).isSome → (List.lookup k out.1).isSome) ∧
    (∀ kv ∈ out.1, kv ∈ acc.1 ∨ ∃ va url lv, (kv.1, va, url) ∈ resources ∧
      get_latest_version env url = Except.ok lv ∧
      kv.2 = ResourceResult.mk (OnlineDetails.mk lv url)
        (build_paths_map env va (find_executable_paths env kv.1)
          (if ssd then search_in_standard_dirs env dirs kv.1 else []))) := by
  intro resources
  induction resources with
  | nil =>
    intro acc out h
    have hao : acc = out := Except.ok.inj h
    subst hao
    exact ⟨by simp, fun k hk => hk, fun kv hkv => Or.inl hkv⟩
  | cons e rs ih =>
    intro acc out h
    rw [List.foldlM_cons] at h
    cases hlv : get_latest_version env e.2.2 with
    | error ex =>
      exfalso
      have hstep : get_resources_step env dirs ssd acc e = Except.error ex := by
        simp only [get_resources_step]
        rw [hlv]
        rfl
      rw [hstep] at h
      exact absurd h (by simp [Bind.bind, Except.bind])
    | ok lv =>
      have hstep : get_resources_step env dirs ssd acc e = Except.ok
          (dictInsert acc.1 e.1 (ResourceResult.mk (OnlineDetails.mk lv e.2.2)
            (build_paths_map env e.2.1 (find_executable_paths env e.1)
              (if ssd then search_in_standard_dirs env dirs e.1 else []))),
           covered_update env (if ssd then search_in_standard_dirs env dirs e.1 else [])
             acc.2) := by
        simp only [get_resources_step]
        rw [hlv]
        rfl
      rw [hstep] at h
      have h' := h
      obtain ⟨hin, hpres, hform⟩ := ih _ out h'
      refine ⟨?_, ?_, ?_⟩
      · intro e' he'
        rcases List.mem_cons.mp he' with h1 | h2
        · subst h1
          apply hpres
          rw [lookup_dictInsert, if_pos rfl]
          rfl
        · exact hin e' h2
      · intro k hk
        apply hpres
        rw [lookup_dictInsert]
        by_cases hke : k = e.1
        · rw [if_pos hke]; rfl
        · rw [if_neg hke]; exact hk
      · intro kv hkv
        rcases hform kv hkv with h1 | h2
        · rcases mem_dictInsert _ _ _ _ h1 with h3 | h4
          · exact Or.inl h3
          · right
            refine ⟨e.2.1, e.2.2, lv, ?_, hlv, ?_⟩
            · rw [show kv.1 = e.1 from congrArg Prod.fst h4]
              exact List.mem_cons_self e rs
            · rw [show kv.2 = _ from congrArg Prod.snd h4,
                show kv.1 = e.1 from congrArg Prod.fst h4]
        · right
          obtain ⟨va, url, lv2, hmem, hok, hform2⟩ := h2
          exact ⟨va, url, lv2, List.mem_cons_of_mem e hmem, hok, hform2⟩

/-- `firstDedup` never stores duplicates. -/
theorem nodup_firstDedup (l : List String) : (firstDedup l).Nodup := by
  induction l with
  | nil => simp [firstDedup]
  | cons x xs ih =>
    rw [firstDedup, List.nodup_cons]
    refine ⟨?_, List.Nodup.filter _ ih⟩
    intro hmem
    have h2 := (List.mem_filter.mp hmem).2
    simp at h2

/-- `firstDedup` keeps exactly the elements of the original list. -/
theorem mem_firstDedup (l : List String) (x : String) : x ∈ firstDedup l ↔ x ∈ l := by
  induction l with
  | nil => simp [firstDedup]
  | cons y ys ih =>
    rw [firstDedup]
    constructor
    · intro h
      rcases List.mem_cons.mp h with h1 | h2
      · rw [h1]; exact List.mem_cons_self y ys
      · exact List.mem_cons_of_mem y (ih.mp (List.mem_filter.mp h2).1)
    · intro h
      rcases List.mem_cons.mp h with h1 | h2
      · rw [h1]; exact List.mem_cons_self y _
      · by_cases e : x = y
        · rw [e]; exact List.mem_cons_self y _
        · exact List.mem_cons_of_mem y (List.mem_filter.mpr ⟨ih.mpr h2, by simp [e]⟩)

/-- Key order after a dict assignment: unchanged for an existing key, the new
key appended otherwise. -/
theorem keys_dictInsert {α : Type} (m : List (String × α)) (k : String) (v : α) :
    (dictInsert m k v).map Prod.fst =
      if k ∈ m.map Prod.fst then m.map Prod.fst else m.map Prod.fst ++ [k] := by
  induction m with
  | nil => simp [dictInsert]
  | cons hd tl ih =>
    obtain ⟨k0, v0⟩ := hd
    by_cases h : k0 = k
    · subst h
      simp [dictInsert]
    · rw [show dictInsert ((k0, v0) :: tl) k v = (k0, v0) :: dictInsert tl k v from by
        simp [dictInsert, h]]
      rw [List.map_cons, ih, List.map_cons]
      by_cases hc : k ∈ tl.map Prod.fst
      · rw [if_pos hc, if_pos (List.mem_cons_of_mem _ hc)]
      · rw [if_neg hc, if_neg ?_]
        · simp
        · intro hmem
          rcases List.mem_cons.mp hmem with h1 | h2
          · exact h h1.symm
          · exact hc h2

/-- Key order after folding dict assignments over a list of items: the keys of
the starting dict, then the first occurrences of the fresh items in order. -/
theorem keys_foldInsert {α : Type} (l : List String) (f : String → α) :
    ∀ (m0 : List (String × α)),
    (l.foldl (fun m q => dictInsert m q (f q)) m0).map Prod.fst =
      m0.map Prod.fst ++ (firstDedup l).filter (fun x => x ∉ m0.map Prod.fst) := by
  induction l with
  | nil => intro m0; simp [firstDedup]
  | cons q l ih =>
    intro m0
    rw [List.foldl_cons, ih, keys_dictInsert, firstDedup]
    by_cases hq : q ∈ m0.map Prod.fst
    · rw [if_pos hq]
      have hdq : (decide (q ∉ m0.map Prod.fst)) = false := by simp [hq]
      rw [List.filter_cons, hdq]
      simp only [Bool.false_eq_true, if_neg (by simp : ¬false = true)]
      congr 1
      rw [List.filter_filter]
      apply List.filter_congr
      intro x _
      by_cases hx : x ∈ m0.map Prod.fst
      · simp [hx]
      · have hne : x ≠ q := fun e => hx (e ▸ hq)
        simp [hx, hne]
    · rw [if_neg hq]
      have hdq : (decide (q ∉ m0.map Prod.fst)) = true := by simp [hq]
      rw [List.filter_cons, hdq]
      simp only [if_pos rfl]
      rw [List.append_assoc, List.singleton_append]
      congr 2
      rw [List.filter_filter]
      apply List.filter_congr
      intro x _
      by_cases hx : x ∈ m0.map Prod.fst
      · simp [hx]
      · by_cases he : x = q
        · subst he
          simp [hx]
        · simp [hx, he]

/-- A path discovered in the standard-directory phase ends bound to the
attributes of that later discovery (`InPath = false`), wherever it sits. -/
theorem lookup_build_paths_map_extra (env : Env) (va : String)
    (paths extra_paths : List String) (p : String) (he : p ∈ extra_paths) :
    List.lookup p (build_paths_map env va paths extra_paths) =
      some (PathDetails.mk (get_path_details env p va).1 (get_path_details env p va).2 false) :=
  lookup_foldInsert_mem extra_paths
    (fun q => PathDetails.mk (get_path_details env q va).1 (get_path_details env q va).2 false)
    _ p he

/-- A path discovered only in the `PATH` phase keeps `InPath = true`. -/
theorem lookup_build_paths_map_path (env : Env) (va : String)
    (paths extra_paths : List String) (p : String) (hp : p ∈ paths) (he : p ∉ extra_paths) :
    List.lookup p (build_paths_map env va paths extra_paths) =
      some (PathDetails.mk (get_path_details env p va).1 (get_path_details env p va).2 true) := by
  have h1 : List.lookup p (build_paths_map env va paths extra_paths) =
      List.lookup p (paths.foldl (fun m q => dictInsert m q
        (PathDetails.mk (get_path_details env q va).1 (get_path_details env q va).2 true)) []) :=
    lookup_foldInsert_not_mem extra_paths
      (fun q => PathDetails.mk (get_path_details env q va).1 (get_path_details env q va).2 false)
      _ p he
  rw [h1]
  exact lookup_foldInsert_mem paths _ _ p hp

/-- Every candidate path of either phase has an entry in the built path
dict. -/
theorem lookup_build_paths_map_isSome (env : Env) (va : String)
    (paths extra_paths : List String) (p : String) (h : p ∈ paths ++ extra_paths) :
    (List.lookup p (build_paths_map env va paths extra_paths)).isSome := by
  rcases List.mem_append.mp h with hp | hp
  · by_cases he : p ∈ extra_paths
    · rw [lookup_build_paths_map_extra env va paths extra_paths p he]; rfl
    · rw [lookup_build_paths_map_path env va paths extra_paths p hp he]; rfl
  · rw [lookup_build_paths_map_extra env va paths extra_paths p hp]; rfl

/-- The key order of the built path dict: first occurrences of the `PATH`
candidates, then the first occurrences of the fresh standard-directory
candidates. -/
theorem keys_build_paths_map (env : Env) (va : String) (paths extra_paths : List String) :
    (build_paths_map env va paths extra_paths).map Prod.fst =
      firstDedup paths ++ (firstDedup extra_paths).filter (fun x => x ∉ firstDedup paths) := by
  have h0 : (paths.foldl (fun m q => dictInsert m q
      (PathDetails.mk (get_path_details env q va).1 (get_path_details env q va).2 true))
        ([] : List (String × PathDetails))).map Prod.fst = firstDedup paths := by
    rw [keys_foldInsert]
    simp
  have h1 : (build_paths_map env va paths extra_paths).map Prod.fst =
      (paths.foldl (fun m q => dictInsert m q
        (PathDetails.mk (get_path_details env q va).1 (get_path_details env q va).2 true))
          ([] : List (String × PathDetails))).map Prod.fst ++
        (firstDedup extra_paths).filter (fun x => x ∉
          (paths.foldl (fun m q => dictInsert m q
            (PathDetails.mk (get_path_details env q va).1 (get_path_details env q va).2 true))
              ([] : List (String × PathDetails))).map Prod.fst) :=
    keys_foldInsert extra_paths
      (fun q => PathDetails.mk (get_path_details env q va).1 (get_path_details env q va).2 false) _
  rw [h1, h0]

/-- Claim C7: `get_version` converts every probe failure into an
`"Error: ..."` string instead of raising — both an exception from the
subprocess call and the `IndexError` from taking the first line of empty
output — and consequently the resource loop completes for every candidate
path of every resource (every candidate gets an entry) as long as the
resolver, the only sub-step that can raise, returns. -/
theorem claim_C7 (env : Env) :
    (∀ cmd args e, env.checkOutput cmd args = Except.error e →
      get_version env cmd args = "Error: " ++ e.msg) ∧
    (∀ cmd args raw, env.checkOutput cmd args = Except.ok raw →
      pySplitlines (pyStrip raw) = [] →
      get_version env cmd args = "Error: list index out of range") ∧
    (∀ (resources : List (String × String × String)) (dirs : List String) (ssd : Bool),
      (∀ e ∈ resources, ∃ s, get_latest_version env e.2.2 = Except.ok s) →
      ∃ res cov, get_resources env resources dirs ssd = Except.ok (res, cov) ∧
        ∀ e ∈ resources, ∃ rr, List.lookup e.1 res = some rr ∧
          ∀ p, p ∈ find_executable_paths env e.1 ++
              (if ssd then search_in_standard_dirs env dirs e.1 else []) →
            (List.lookup p rr.paths).isSome) := by
  refine ⟨?_, ?_, ?_⟩
  · intro cmd args e h
    unfold get_version
    rw [h]
  · intro cmd args raw h1 h2
    unfold get_version
    rw [h1]
    show (match pySplitlines (pyStrip raw) with
          | line :: _ => line
          | [] => "Error: " ++ (PyExc.indexError "list index out of range").msg) =
        "Error: list index out of range"
    rw [h2]
    rfl
  · intro resources dirs ssd hres
    obtain ⟨out, hout⟩ := foldlM_step_ok env dirs ssd resources ([], []) hres
    obtain ⟨hin, _, hform⟩ := foldlM_step_spec env dirs ssd resources ([], []) out hout
    refine ⟨out.1, out.2, ?_, ?_⟩
    · unfold get_resources
      rw [hout]
    · intro e he
      have hsome := hin e he
      cases hl : List.lookup e.1 out.1 with
      | none => rw [hl] at hsome; cases hsome
      | some rr =>
        refine ⟨rr, rfl, ?_⟩
        intro p hp
        rcases hform (e.1, rr) (mem_of_lookup _ _ _ hl) with h0 | h2
        · cases h0
        · obtain ⟨va, url, lv, _, _, hform2⟩ := h2
          have hpaths : rr.paths = build_paths_map env va (find_executable_paths env e.1)
              (if ssd then search_in_standard_dirs env dirs e.1 else []) :=
            congrArg ResourceResult.paths hform2
          rw [hpaths]
          exact lookup_build_paths_map_isSome env va _ _ p hp

/-- Witness for C7 at a concrete environment in which the node version probe
dies, `which -a node` lists two paths, the glob rediscovers one of them, and
the second resource does not exist at all: the run completes with an entry
for every candidate of both resources. -/
theorem claim_C7_witness :
    ∃ res cov, get_resources envC7 resourcesC7 ["/usr"] true = Except.ok (res, cov) ∧
      ∀ e ∈ resourcesC7, ∃ rr, List.lookup e.1 res = some rr ∧
        ∀ p, p ∈ find_executable_paths envC7 e.1 ++
            (if true then search_in_standard_dirs envC7 ["/usr"] e.1 else []) →
          (List.lookup p rr.paths).isSome :=
  (claim_C7 envC7).2.2 resourcesC7 ["/usr"] true
    (fun _ _ => ⟨"Error fetching data: down", rfl⟩)

/-- Claim C8: a resource whose `PATH` locator and standard-directory search
both come back empty ends with an empty path dict and a header line reading
`<resource>: No paths found`; a resource with at least one discovered path
gets the bare header `<resource>: ` instead. -/
theorem claim_C8 (env : Env) (resources : List (String × String × String))
    (dirs : List String) (ssd : Bool)
    (res : List (String × ResourceResult)) (cov : List String)
    (pc : List (String × Nat)) (r va url : String)
    (hok : get_resources env resources dirs ssd = Except.ok (res, cov))
    (hmem : (r, va, url) ∈ resources)
    (hpaths : find_executable_paths env r = [])
    (hextra : ssd = true → search_in_standard_dirs env dirs r = []) :
    (∃ rr, List.lookup r res = some rr ∧ rr.paths = [] ∧
      (resourceSection pc r rr).head? = some (r ++ ": No paths found")) ∧
    (∀ (r2 : String) (rr2 : ResourceResult), rr2.paths ≠ [] →
      (resourceSection pc r2 rr2).head? = some (r2 ++ ": ")) := by
  obtain ⟨hin, _, hform⟩ := foldlM_step_spec env dirs ssd resources ([], []) (res, cov) hok
  constructor
  · have hsome := hin (r, va, url) hmem
    cases hl : List.lookup r res with
    | none =>
      rw [show List.lookup (r, va, url).1 (res, cov).1 = List.lookup r res from rfl, hl]
        at hsome
      cases hsome
    | some rr =>
      refine ⟨rr, rfl, ?_⟩
      rcases hform (r, rr) (mem_of_lookup _ _ _ hl) with h0 | h2
      · cases h0
      · obtain ⟨va2, url2, lv2, _, _, hform2⟩ := h2
        have hpz : rr.paths = [] := by
          have hp2 : rr.paths = build_paths_map env va2 (find_executable_paths env r)
              (if ssd then search_in_standard_dirs env dirs r else []) :=
            congrArg ResourceResult.paths hform2
          rw [hp2, hpaths]
          cases hssd : ssd with
          | true =>
            rw [if_pos rfl, hextra hssd]
            rfl
          | false =>
            rw [if_neg (by simp)]
            rfl
        refine ⟨hpz, ?_⟩
        unfold resourceSection
        rw [hpz]
        show some (r ++ ": " ++ "No paths found") = some (r ++ ": No paths found")
        rw [String.append_assoc]
        rfl
  · intro r2 rr2 hne
    unfold resourceSection
    have hlen : ¬(rr2.paths.length = 0) := by
      intro h0
      exact hne (List.length_eq_zero.mp h0)
    rw [if_neg hlen]
    show some (r2 ++ ": " ++ "") = some (r2 ++ ": ")
    rw [String.append_empty]

/-- Claim C9 (implicit): a path reported by both the locator and the
standard-directory search yields exactly one entry in the path dict, its
position is the first (PATH-phase) insertion point (the key list is the
first-occurrence order of the PATH candidates followed by the fresh
standard-directory candidates), its attributes are those of the later
standard-directory discovery (`InPath = false`), and its backslash-segment
chain is folded into the resource hierarchy. -/
theorem claim_C9 (env : Env) (dirs : List String) (resource va p : String)
    (h1 : p ∈ find_executable_paths env resource)
    (h2 : p ∈ search_in_standard_dirs env dirs resource) :
    ((build_paths_map env va (find_executable_paths env resource)
        (search_in_standard_dirs env dirs resource)).map Prod.fst).count p = 1 ∧
    (build_paths_map env va (find_executable_paths env resource)
        (search_in_standard_dirs env dirs resource)).map Prod.fst =
      firstDedup (find_executable_paths env resource) ++
        (firstDedup (search_in_standard_dirs env dirs resource)).filter
          (fun x => x ∉ firstDedup (find_executable_paths env resource)) ∧
    List.lookup p (build_paths_map env va (find_executable_paths env resource)
        (search_in_standard_dirs env dirs resource)) =
      some (PathDetails.mk (get_path_details env p va).1 (get_path_details env p va).2 false) ∧
    hasChain (buildResourceHierarchy (build_paths_map env va (find_executable_paths env resource)
        (search_in_standard_dirs env dirs resource))) (pySplit '\\' p) = true := by
  have hkeys := keys_build_paths_map env va (find_executable_paths env resource)
    (search_in_standard_dirs env dirs resource)
  have hlook := lookup_build_paths_map_extra env va (find_executable_paths env resource)
    (search_in_standard_dirs env dirs resource) p h2
  refine ⟨?_, hkeys, hlook, ?_⟩
  · rw [hkeys, List.count_append]
    have hc1 : (firstDedup (find_executable_paths env resource)).count p = 1 :=
      List.count_eq_one_of_mem (nodup_firstDedup _) ((mem_firstDedup _ p).mpr h1)
    have hc2 : ((firstDedup (search_in_standard_dirs env dirs resource)).filter
        (fun x => x ∉ firstDedup (find_executable_paths env resource))).count p = 0 := by
      apply List.count_eq_zero_of_not_mem
      intro hmem
      have := (List.mem_filter.mp hmem).2
      rw [decide_eq_true_iff] at this
      exact this ((mem_firstDedup _ p).mpr h1)
    rw [hc1, hc2]
  · unfold buildResourceHierarchy
    rw [hasChain_buildFold]
    have hany : (build_paths_map env va (find_executable_paths env resource)
        (search_in_standard_dirs env dirs resource)).any
          (fun pd => !pd.2.InPath && (pySplit '\\' p).isPrefixOf (pySplit '\\' pd.1)) = true := by
      rw [List.any_eq_true]
      refine ⟨(p, PathDetails.mk (get_path_details env p va).1 (get_path_details env p va).2
        false), mem_of_lookup _ _ _ hlook, ?_⟩
      simp
    rw [hany]
    simp

/-- Witness for C9: in `envC7`, `/usr/bin/node` is reported by both
`which -a node` and the `/usr` glob; every conjunct is checked at the
concrete dict. -/
theorem claim_C9_witness :
    ((build_paths_map envC7 "--version" (find_executable_paths envC7 "node")
        (search_in_standard_dirs envC7 ["/usr"] "node")).map Prod.fst).count "/usr/bin/node" = 1 ∧
    (build_paths_map envC7 "--version" (find_executable_paths envC7 "node")
        (search_in_standard_dirs envC7 ["/usr"] "node")).map Prod.fst =
      firstDedup (find_executable_paths envC7 "node") ++
        (firstDedup (search_in_standard_dirs envC7 ["/usr"] "node")).filter
          (fun x => x ∉ firstDedup (find_executable_paths envC7 "node")) ∧
    List.lookup "/usr/bin/node" (build_paths_map envC7 "--version"
        (find_executable_paths envC7 "node") (search_in_standard_dirs envC7 ["/usr"] "node")) =
      some (PathDetails.mk (get_path_details envC7 "/usr/bin/node" "--version").1
        (get_path_details envC7 "/usr/bin/node" "--version").2 false) ∧
    hasChain (buildResourceHierarchy (build_paths_map envC7 "--version"
        (find_executable_paths envC7 "node")
        (search_in_standard_dirs envC7 ["/usr"] "node"))) (pySplit '\\' "/usr/bin/node") = true :=
  claim_C9 envC7 ["/usr"] "node" "--version" "/usr/bin/node" (by decide) (by decide)

/-- Witness for C8: in the concrete run, resource `ghost` (no `which` hit, no
glob hit) has an empty path dict and the `No paths found` header; any
resource with paths gets the bare header. -/
theorem claim_C8_witness :
    (∃ rr, List.lookup "ghost" resC8 = some rr ∧ rr.paths = [] ∧
      (resourceSection [] "ghost" rr).head? = some ("ghost" ++ ": No paths found")) ∧
    (∀ (r2 : String) (rr2 : ResourceResult), rr2.paths ≠ [] →
      (resourceSection [] r2 rr2).head? = some (r2 ++ ": ")) :=
  claim_C8 envC7 resourcesC7 ["/usr"] true resC8 covC8 [] "ghost" "--version"
    "https://example.org/" rfl (by decide) rfl (fun _ => rfl)

end ResourceChecker
